import Mathlib

/-!
Verification development for the cost-varying variable-subsets Bayesian
optimisation core: a shallow embedding of `core/psq.py`, `core/dists.py` and
`core/cvs.py` together with theorems about the embedded operations.

Modelling conventions:
floats are modelled by exact rationals; numpy arrays by lists with
`getD` indexing (all claims are about in-range indexing); Python exceptions
(`NotImplementedError`, `AssertionError`, explicit `raise`) by `Except` /
`Option` results; the unbounded bisection `while` loop by an explicit fuel
parameter.  `scipy.stats.norm.cdf` / `norm.pdf` are external transcendental
functions and are taken as parameters of the definitions that use them.
-/

/-- Python `int()` applied to a float/rational: truncation toward zero. -/
def pyint (q : ℚ) : ℤ := if 0 ≤ q then ⌊q⌋ else -⌊-q⌋

/-- Elementwise `np.maximum` on scalars. -/
def npmax (x y : ℚ) : ℚ := if x ≤ y then y else x

/-- Scalar `np.allclose` with numpy default tolerances
`atol = 1e-8`, `rtol = 1e-5`: true iff the difference is within
`atol + rtol * |reference|`. -/
def np_allclose (x y : ℚ) : Prop := |x - y| ≤ 1 / 100000000 + 1 / 100000 * |y|

instance np_allclose_dec (x y : ℚ) : Decidable (np_allclose x y) := by
  unfold np_allclose
  infer_instance

/-- Embedding of `truncnorm_variance` from `core/dists.py` (lines 74-82), with the standard
normal cdf and pdf (scipy externals) passed in as `normCdf` / `normPdf`. -/
def truncnorm_variance (normCdf normPdf : ℚ → ℚ) (loc scale a b : ℚ) : ℚ :=
  let alpha := (a - loc) / scale
  let beta := (b - loc) / scale
  let Z := normCdf beta - normCdf alpha
  let A := (alpha * normPdf alpha - beta * normPdf beta) / Z
  let B := ((normPdf alpha - normPdf beta) / Z) ^ 2
  scale ^ 2 * (1 + A - B)

/-- The bisection `while` loop of `get_truncnorm_scale` (`core/dists.py`
lines 94-104), with fuel for the unbounded loop: each step computes the
midpoint of the current bracket, evaluates the variance function there,
stops as soon as `np.allclose` holds, and otherwise halves the bracket on
the side indicated by comparing the current variance to the target. -/
def bisect_loop (f : ℚ → ℚ) (desired_var : ℚ) : ℚ → ℚ → ℕ → Option ℚ
  | _, _, 0 => none
  | low, high, fuel + 1 =>
    let mid := (low + high) / 2
    let curr_var := f mid
    if np_allclose curr_var desired_var then some mid
    else if desired_var < curr_var then bisect_loop f desired_var low mid fuel
    else bisect_loop f desired_var mid high fuel

/-- Embedding of `get_truncnorm_scale` from `core/dists.py` (lines 85-104): bracket
endpoint checks (`raise` modelled as `Except.error`), then bisection on the
truncated-normal variance in the scale parameter.  A `none` payload means
the loop ran out of fuel (the Python loop has no iteration cap). -/
def get_truncnorm_scale (normCdf normPdf : ℚ → ℚ) (desired_var loc a b : ℚ)
    (fuel : ℕ) : Except String (Option ℚ) :=
  if desired_var < truncnorm_variance normCdf normPdf loc (1 / 1000) a b then
    Except.error "low is too high!"
  else if truncnorm_variance normCdf normPdf loc 100 a b < desired_var then
    Except.error "high is too low!"
  else
    Except.ok (bisect_loop
      (fun s => truncnorm_variance normCdf normPdf loc s a b)
      desired_var (1 / 1000) 100 fuel)

/-- Whether an `Except` value is an error (a raised Python exception). -/
def raised {α : Type} (e : Except String α) : Bool :=
  match e with
  | Except.error _ => true
  | Except.ok _ => false

/-- Embedding of `order_idxs` from `get_opt_queries_and_vals` (`core/dists.py` lines
148-151): for each original dimension `j`, the position of `j` inside the
concatenated index array (`np.where(cat_idxs == j)[0][0]`, i.e. the first
occurrence). -/
def order_idxs (cat_idxs : List ℕ) : List ℕ :=
  (List.range cat_idxs.length).map (fun j => cat_idxs.indexOf j)

/-- Which maximization strategy `get_opt_queries_and_vals` uses for one
catalog index: direct maximization of `f` over the full bounds, or
maximization of the Monte Carlo average over the random-set sample columns
restricted to the control-set bounds. -/
inductive OptBranch : Type
  | direct : OptBranch
  | marginal : List ℕ → List ℕ → OptBranch
deriving DecidableEq

/-- The branch selection of `get_opt_queries_and_vals` (`core/dists.py`
lines 136-161) for catalog index `i`.  The source decides with
`len(control_sets) == dims`, comparing the NUMBER of control sets in the
catalog with the dimensionality; `maximize_fn` and `expectation_det`
(external black boxes from `core.utils`) are abstracted away, keeping the
data each branch is fed: the marginal branch gets the column permutation
`order_idxs` built from the concatenation of the i-th control and random
index sets, and the control-set indices used to slice the bounds. -/
def opt_branch (control_sets random_sets : List (List ℕ)) (dims i : ℕ) :
    OptBranch :=
  if control_sets.length = dims then OptBranch.direct
  else
    OptBranch.marginal
      (order_idxs (control_sets.getD i [] ++ random_sets.getD i []))
      (control_sets.getD i [])

/-- Modelled from the spec: `core.utils.powerset` is imported by `psq.py` and
`cvs.py` but `core/utils.py` is not among the provided sources.  The spec
pins the `dims=3` catalog to the power set of the three dimension indices
minus the empty set, seven entries with the full set last (itertools-style
enumeration by increasing subset size, lexicographic within a size). -/
def powerset (l : List ℕ) : List (List ℕ) :=
  ((List.range (l.length + 1)).drop 1).flatMap
    (fun r => l.sublists.filter (fun s => s.length = r))

/-- Embedding of `get_control_sets` from `core/psq.py` (lines 164-200); unsupported
`(dims, control_id)` combinations raise `NotImplementedError`. -/
def psq_get_control_sets (dims control_id : ℕ) :
    Except String (List (List ℕ)) :=
  if dims = 3 then
    if control_id = 0 then Except.ok (powerset (List.range 3))
    else Except.error "NotImplementedError"
  else if dims = 5 then
    if control_id = 0 then
      Except.ok [[0, 1], [2, 3], [3, 4], [0, 1, 2], [1, 2, 3], [2, 3, 4],
        [0, 1, 2, 3, 4]]
    else Except.error "NotImplementedError"
  else if dims = 6 then
    if control_id = 0 then
      Except.ok [[0, 1], [2, 3], [4, 5], [0, 1, 2, 3], [1, 2, 3, 4],
        [2, 3, 4, 5], [0, 1, 2, 3, 4, 5]]
    else Except.error "NotImplementedError"
  else Except.error "NotImplementedError"

/-- Embedding of `get_control_sets` from `core/cvs.py` (lines 43-94): same catalogs as
`psq.py` plus `(dims=5, control_id=1)` and `(dims=8, control_id=0)`. -/
def cvs_get_control_sets (dims control_id : ℕ) :
    Except String (List (List ℕ)) :=
  if dims = 3 then
    if control_id = 0 then Except.ok (powerset (List.range 3))
    else Except.error "NotImplementedError"
  else if dims = 5 then
    if control_id = 0 then
      Except.ok [[0, 1], [2, 3], [3, 4], [0, 1, 2], [1, 2, 3], [2, 3, 4],
        [0, 1, 2, 3, 4]]
    else if control_id = 1 then
      Except.ok [[3, 4], [1, 4], [0, 3], [1, 2], [2, 4], [0, 1], [2, 3]]
    else Except.error "NotImplementedError"
  else if dims = 6 then
    if control_id = 0 then
      Except.ok [[0, 1], [2, 3], [4, 5], [0, 1, 2, 3], [1, 2, 3, 4],
        [2, 3, 4, 5], [0, 1, 2, 3, 4, 5]]
    else Except.error "NotImplementedError"
  else if dims = 8 then
    if control_id = 0 then
      Except.ok [[0, 1, 2], [3, 4, 5], [5, 6, 7], [0, 1, 2, 3, 4],
        [2, 3, 4, 5, 6], [3, 4, 5, 6, 7], [0, 1, 2, 3, 4, 5, 6, 7]]
    else Except.error "NotImplementedError"
  else Except.error "NotImplementedError"

/-- Embedding of `get_costs`, identical in `core/psq.py` (lines 203-213) and
`core/cvs.py` (lines 97-107). -/
def get_costs (cost_id : ℕ) : Except String (List ℚ) :=
  if cost_id = 0 then
    Except.ok [1/100, 1/100, 1/100, 1/10, 1/10, 1/10, 1]
  else if cost_id = 1 then
    Except.ok [1/10, 1/10, 1/10, 1/5, 1/5, 1/5, 1]
  else if cost_id = 2 then
    Except.ok [3/5, 3/5, 3/5, 4/5, 4/5, 4/5, 1]
  else Except.error "NotImplementedError"

/-- Embedding of `get_random_sets`, identical in `core/psq.py` (lines 216-221) and
`core/cvs.py` (lines 110-115): per control set, the sorted complement
`np.setdiff1d(np.arange(dims), control_set)`. -/
def get_random_sets (dims : ℕ) (control_sets : List (List ℕ)) :
    List (List ℕ) :=
  control_sets.map (fun c => (List.range dims).filter (fun d => decide (d ∉ c)))

/-- Insertion step of an ascending sort. -/
def insert_sorted (x : ℕ) : List ℕ → List ℕ
  | [] => [x]
  | y :: ys => if x ≤ y then x :: y :: ys else y :: insert_sorted x ys

/-- Model of `np.sort` on an integer index array: ascending order. -/
def npsort (l : List ℕ) : List ℕ := l.foldr insert_sorted []

/-- The per-entry assertion loop of `get_control_sets_and_costs`:
`np.allclose(np.sort(concat(control, random)), np.arange(dims))` for every
catalog index (on integer index arrays `np.allclose` is equality of
equal-length arrays). -/
def union_check (dims : ℕ) (control_sets random_sets : List (List ℕ)) : Bool :=
  (List.range control_sets.length).all
    (fun i => decide
      (npsort (control_sets.getD i [] ++ random_sets.getD i []) =
        List.range dims))

/-- Embedding of `get_control_sets_and_costs` from `core/psq.py` (lines 224-238): builds
the catalog, computes random sets, asserts the union invariant for every
entry, then asserts `len(costs) == len(control_sets)`. -/
def psq_get_control_sets_and_costs (dims control_sets_id costs_id : ℕ) :
    Except String (List (List ℕ) × List (List ℕ) × List ℚ) :=
  match psq_get_control_sets dims control_sets_id with
  | Except.error e => Except.error e
  | Except.ok control_sets =>
    let random_sets := get_random_sets dims control_sets
    if union_check dims control_sets random_sets then
      match get_costs costs_id with
      | Except.error e => Except.error e
      | Except.ok costs =>
        if costs.length = control_sets.length then
          Except.ok (control_sets, random_sets, costs)
        else Except.error "AssertionError"
    else Except.error "AssertionError"

/-- Embedding of `get_control_sets_and_costs` from `core/cvs.py` (lines 118-132): same
body as the `psq.py` version over the `cvs.py` catalog. -/
def cvs_get_control_sets_and_costs (dims control_sets_id costs_id : ℕ) :
    Except String (List (List ℕ) × List (List ℕ) × List ℚ) :=
  match cvs_get_control_sets dims control_sets_id with
  | Except.error e => Except.error e
  | Except.ok control_sets =>
    let random_sets := get_random_sets dims control_sets
    if union_check dims control_sets random_sets then
      match get_costs costs_id with
      | Except.error e => Except.error e
      | Except.ok costs =>
        if costs.length = control_sets.length then
          Except.ok (control_sets, random_sets, costs)
        else Except.error "AssertionError"
    else Except.error "AssertionError"

/-- State of `LinearSchedule` (`core/psq.py` lines 148-161): constructor
parameters `start_eps`, `cutoff_iter`, the iteration counter `t` (0 at
construction) and the `last_eps` field from the `EpsilonSchedule` base class
(`None` at construction). -/
structure LinearSchedule : Type where
  start_eps : ℚ
  cutoff_iter : ℚ
  t : ℕ
  last_eps : Option ℚ
deriving DecidableEq

/-- Embedding of `LinearSchedule.__init__`. -/
def LinearSchedule.make (start_eps cutoff_iter : ℚ) : LinearSchedule :=
  LinearSchedule.mk start_eps cutoff_iter 0 none

/-- The epsilon value `LinearSchedule.next` computes:
`start_eps * np.maximum(1 - t / cutoff_iter, 0.0)`. -/
def linear_eps (s : LinearSchedule) : ℚ :=
  s.start_eps * npmax (1 - (s.t : ℚ) / s.cutoff_iter) 0

/-- Embedding of `LinearSchedule.next` (`core/psq.py` lines 155-158): returns the epsilon
and the post-call object state (the method stores the value in
`self.last_eps` before returning it). -/
def LinearSchedule.next (s : LinearSchedule) (opt_vals : List ℚ) :
    ℚ × LinearSchedule :=
  (linear_eps s,
    LinearSchedule.mk s.start_eps s.cutoff_iter s.t (some (linear_eps s)))

/-- Embedding of `LinearSchedule.update` (`core/psq.py` lines 160-161): increments `t`;
the `prev_control_idx` argument is ignored. -/
def LinearSchedule.update (s : LinearSchedule) (prev_control_idx : Option ℕ) :
    LinearSchedule :=
  LinearSchedule.mk s.start_eps s.cutoff_iter (s.t + 1) s.last_eps

/-- State of `AdaLinSchedule` (`core/psq.py` lines 57-84): `start_eps`, the
integer `cutoff_iter` computed at construction, the iteration counter `t`
and the inherited `last_eps`. -/
structure AdaLinSchedule : Type where
  start_eps : ℚ
  cutoff_iter : ℤ
  t : ℕ
  last_eps : Option ℚ
deriving DecidableEq

/-- The `sum_of_variances` array built in `AdaLinSchedule.__init__`
(`core/psq.py` lines 64-68): for each non-full catalog index `i`,
`np.sum(variances[random_sets[i]] / (1 / 12))`. -/
def sum_of_variances (variances : List ℚ) (random_sets : List (List ℕ)) :
    List ℚ :=
  (List.range (random_sets.length - 1)).map
    (fun i => ((random_sets.getD i []).map
      (fun d => variances.getD d 0 / (1 / 12))).sum)

/-- Embedding of `AdaLinSchedule.__init__` (`core/psq.py` lines 58-76): the cutoff is
`np.sum(costs[-1] / costs[:-1] * sum_of_variances)` in variance-aware mode
and `np.sum(costs[-1] / costs[:-1])` otherwise, scaled by `cutoff_mult` and
truncated with `int(...)`. -/
def AdaLinSchedule.make (start_eps cutoff_mult : ℚ) (var_aware : Bool)
    (costs : List ℚ) (random_sets : List (List ℕ)) (variances : List ℚ) :
    AdaLinSchedule :=
  let sov := sum_of_variances variances random_sets
  let cutoff_iter : ℚ :=
    if var_aware then
      (List.zipWith (fun c s => costs.getLastD 0 / c * s) costs.dropLast
        sov).sum
    else (costs.dropLast.map (fun c => costs.getLastD 0 / c)).sum
  AdaLinSchedule.mk start_eps (pyint (cutoff_mult * cutoff_iter)) 0 none

/-- Embedding of `AdaLinSchedule.next` (`core/psq.py` lines 78-81): the same linear decay
expression as `LinearSchedule.next`, with the stored integer cutoff. -/
def AdaLinSchedule.next (s : AdaLinSchedule) (opt_vals : List ℚ) :
    ℚ × AdaLinSchedule :=
  let eps := s.start_eps * npmax (1 - (s.t : ℚ) / (s.cutoff_iter : ℚ)) 0
  (eps, AdaLinSchedule.mk s.start_eps s.cutoff_iter s.t (some eps))

/-- Embedding of `AdaLinSchedule.update` (`core/psq.py` lines 83-84). -/
def AdaLinSchedule.update (s : AdaLinSchedule) (prev_control_idx : Option ℕ) :
    AdaLinSchedule :=
  AdaLinSchedule.mk s.start_eps s.cutoff_iter (s.t + 1) s.last_eps

/-- State of `AdaSchedule` (`core/psq.py` lines 87-145): the catalog size
`m`, the per-control-set play counters (floats starting at 0 and only ever
incremented by 1, hence naturals), the integer target play counts, and the
inherited `last_eps`. -/
structure AdaSchedule : Type where
  m : ℕ
  n_plays : List ℕ
  target_plays : List ℤ
  last_eps : Option ℚ
deriving DecidableEq

/-- Condition 1 of `AdaSchedule.__init__` (`core/psq.py` lines 109-117):
control set `i` gets zero target plays when some other catalog index `j`
has `np.setdiff1d(control_sets[i], control_sets[j])` empty (i.e. every
element of control set `i` occurs in control set `j`) and
`costs[i] >= costs[j]`. -/
def zero_plays_cond (costs : List ℚ) (control_sets : List (List ℕ))
    (m i : ℕ) : Prop :=
  ∃ j, j < m ∧ j ≠ i ∧
    (∀ d ∈ control_sets.getD i [], d ∈ control_sets.getD j []) ∧
    costs.getD j 0 ≤ costs.getD i 0

instance zero_plays_cond_dec (costs : List ℚ) (control_sets : List (List ℕ))
    (m i : ℕ) : Decidable (zero_plays_cond costs control_sets m i) := by
  unfold zero_plays_cond
  infer_instance

/-- The target play count `AdaSchedule.__init__` assigns to a non-full
catalog index `i` (`core/psq.py` lines 108-122):
`int((costs[-1] / costs[i]) * np.sum(all_var_ls_ratios[random_sets[i]]))`
unless condition 1 zeroes it, where `all_var_ls_ratios` is the elementwise
quotient `variances / lengthscales`. -/
def target_play (costs : List ℚ) (control_sets random_sets : List (List ℕ))
    (ratios : List ℚ) (m i : ℕ) : ℤ :=
  if zero_plays_cond costs control_sets m i then 0
  else pyint ((costs.getLastD 0 / costs.getD i 0) *
    ((random_sets.getD i []).map (fun d => ratios.getD d 0)).sum)

/-- Embedding of `AdaSchedule.__init__` (`core/psq.py` lines 88-123): `none` models the
`assert len(random_sets[-1]) == 0` failing (or the `random_sets[-1]` lookup
itself failing on an empty catalog), which aborts construction before any
play counters or target play counts exist. -/
def AdaSchedule.make (costs : List ℚ) (control_sets random_sets : List (List ℕ))
    (variances lengthscales : List ℚ) : Option AdaSchedule :=
  let m := random_sets.length
  if m = 0 then none
  else if random_sets.getLastD [] = [] then
    let ratios := List.zipWith (fun v l => v / l) variances lengthscales
    some (AdaSchedule.mk m (List.replicate m 0)
      ((List.range m).map (fun i =>
        if i + 1 < m then target_play costs control_sets random_sets ratios m i
        else 0))
      none)
  else none

/-- The threshold `AdaSchedule.next` computes for catalog index `i`
(`core/psq.py` line 128): `opt_vals[-1] - opt_vals[i] + 1e-04`. -/
def required_eps (opt_vals : List ℚ) (i : ℕ) : ℚ :=
  opt_vals.getLastD 0 - opt_vals.getD i 0 + 1 / 10000

/-- The per-index test of the scan in `AdaSchedule.next` (`core/psq.py`
lines 127-137): the play counter is strictly below its target and no
earlier index `j` satisfies `opt_vals[j] + required_eps >= opt_vals[-1]`. -/
def ada_cond (s : AdaSchedule) (opt_vals : List ℚ) (i : ℕ) : Prop :=
  ((s.n_plays.getD i 0 : ℤ) < s.target_plays.getD i 0) ∧
    ∀ j, j < i → opt_vals.getD j 0 + required_eps opt_vals i <
      opt_vals.getLastD 0

instance ada_cond_dec (s : AdaSchedule) (opt_vals : List ℚ) (i : ℕ) :
    Decidable (ada_cond s opt_vals i) := by
  unfold ada_cond
  infer_instance

/-- The `for i in range(self.m - 1)` scan with `break` of `AdaSchedule.next`
(`core/psq.py` lines 127-137), as a first-match search starting at index
`i` with `fuel` indices left to inspect. -/
def scan_from (s : AdaSchedule) (opt_vals : List ℚ) : ℕ → ℕ → Option ℕ
  | _, 0 => none
  | i, fuel + 1 =>
    if ada_cond s opt_vals i then some i else scan_from s opt_vals (i + 1) fuel

/-- Embedding of `AdaSchedule.next` (`core/psq.py` lines 125-141): epsilon is the
`required_eps` of the first index the scan accepts, `0.0` when the scan
finds none; the value is stored into `self.last_eps` before returning. -/
def AdaSchedule.next (s : AdaSchedule) (opt_vals : List ℚ) :
    ℚ × AdaSchedule :=
  let eps : ℚ :=
    match scan_from s opt_vals 0 (s.m - 1) with
    | some i => required_eps opt_vals i
    | none => 0
  (eps, AdaSchedule.mk s.m s.n_plays s.target_plays (some eps))

/-- Embedding of `AdaSchedule.update` (`core/psq.py` lines 143-145): increments the play
counter of `prev_control_idx` when it is present. -/
def AdaSchedule.update (s : AdaSchedule) (prev_control_idx : Option ℕ) :
    AdaSchedule :=
  match prev_control_idx with
  | none => s
  | some i =>
    AdaSchedule.mk s.m (s.n_plays.set i (s.n_plays.getD i 0 + 1))
      s.target_plays s.last_eps

/-- Specification-side eligibility predicate for claim C2, written from the
claim text: index `i` is scanned (`i` ranges over `0..m-2`), every earlier
index `j` keeps `opt_vals[j] + required_eps < opt_vals[-1]`, and the play
count of `i` is strictly below its target. -/
def ada_qualifies (s : AdaSchedule) (opt_vals : List ℚ) (i : ℕ) : Prop :=
  i < s.m - 1 ∧
    (∀ j, j < i → opt_vals.getD j 0 +
      (opt_vals.getLastD 0 - opt_vals.getD i 0 + 1 / 10000) <
        opt_vals.getLastD 0) ∧
    ((s.n_plays.getD i 0 : ℤ) < s.target_plays.getD i 0)

/-- Specification-side target-play formula for claim C3:
`(cost[-1] / cost[i]) * sum(variance[d] / lengthscale[d] for d in
random_set[i])`. -/
def target_formula (costs variances lengthscales : List ℚ)
    (random_sets : List (List ℕ)) (i : ℕ) : ℚ :=
  (costs.getLastD 0 / costs.getD i 0) *
    ((random_sets.getD i []).map
      (fun d => variances.getD d 0 / lengthscales.getD d 0)).sum

/-- Specification-side domination predicate for claim C3: some other control
set `j` whose control dimensions are a superset of those of `i` has
`cost[j] <= cost[i]`. -/
def dominated_spec (costs : List ℚ) (control_sets : List (List ℕ))
    (m i : ℕ) : Prop :=
  ∃ j, j < m ∧ j ≠ i ∧
    (∀ d ∈ control_sets.getD i [], d ∈ control_sets.getD j []) ∧
    costs.getD j 0 ≤ costs.getD i 0

/-- The helper `npmax` agrees with the lattice maximum. -/
theorem npmax_eq_max (x y : ℚ) : npmax x y = max x y := by
  unfold npmax
  split
  · exact (max_eq_right (by assumption)).symm
  · exact (max_eq_left (le_of_not_le (by assumption))).symm

/-- Python truncation agrees with the floor on non-negative values. -/
theorem pyint_eq_floor (q : ℚ) (h : 0 ≤ q) : pyint q = ⌊q⌋ := if_pos h

/-- The first-match scan returns nothing exactly when no inspected index
satisfies the scan condition. -/
theorem scan_from_none_iff (s : AdaSchedule) (v : List ℚ) :
    ∀ (fuel i : ℕ), scan_from s v i fuel = none ↔
      ∀ k, i ≤ k → k < i + fuel → ¬ ada_cond s v k := by
  intro fuel
  induction fuel with
  | zero =>
    intro i
    constructor
    · intro _ k hik hk
      omega
    · intro _
      rfl
  | succ fuel ih =>
    intro i
    rw [scan_from]
    split
    · constructor
      · intro h
        exact absurd h (by simp)
      · intro h
        exact absurd (by assumption) (h i le_rfl (by omega))
    · rw [ih (i + 1)]
      constructor
      · intro h k hik hk
        rcases eq_or_lt_of_le hik with heq | hlt
        · subst heq
          assumption
        · exact h k hlt (by omega)
      · intro h k h1 h2
        exact h k (by omega) (by omega)

/-- The first-match scan returns `k` exactly when `k` is the first inspected
index satisfying the scan condition. -/
theorem scan_from_some_iff (s : AdaSchedule) (v : List ℚ) :
    ∀ (fuel i k : ℕ), scan_from s v i fuel = some k ↔
      (i ≤ k ∧ k < i + fuel ∧ ada_cond s v k ∧
        ∀ j, i ≤ j → j < k → ¬ ada_cond s v j) := by
  intro fuel
  induction fuel with
  | zero =>
    intro i k
    constructor
    · intro h
      exact absurd h (by simp [scan_from])
    · intro h
      omega
  | succ fuel ih =>
    intro i k
    rw [scan_from]
    split
    · constructor
      · intro h
        have hik : i = k := by
          simpa using h
        subst hik
        exact ⟨le_rfl, by omega, by assumption, fun j h1 h2 => by omega⟩
      · intro h
        have hik : i = k := by
          by_contra hne
          exact h.2.2.2 i le_rfl (by omega) (by assumption)
        subst hik
        rfl
    · rw [ih (i + 1)]
      constructor
      · intro h
        refine ⟨by omega, by omega, h.2.2.1, fun j h1 h2 => ?_⟩
        rcases eq_or_lt_of_le h1 with heq | hlt
        · subst heq
          assumption
        · exact h.2.2.2 j hlt h2
      · intro h
        have hik : i ≠ k := by
          intro heq
          subst heq
          exact absurd h.2.2.1 (by assumption)
        exact ⟨by omega, by omega, h.2.2.1, fun j h1 h2 => h.2.2.2 j (by omega) h2⟩

/-- The epsilon returned by `AdaSchedule.next` is the scan result. -/
theorem ada_next_fst (s : AdaSchedule) (v : List ℚ) :
    (s.next v).1 = (match scan_from s v 0 (s.m - 1) with
      | some i => required_eps v i
      | none => 0) := rfl

/-- Eligibility in the claim wording versus the scan condition. -/
theorem ada_qualifies_iff (s : AdaSchedule) (v : List ℚ) (i : ℕ) :
    ada_qualifies s v i ↔ (i < s.m - 1 ∧ ada_cond s v i) := by
  unfold ada_qualifies ada_cond required_eps
  tauto

/-- Claim C2: `AdaSchedule.next` scans indices `0..m-2` in order and returns
`opt_vals[-1] - opt_vals[i] + 1e-4` for the first index `i` that is valid
(no earlier index `j` has `opt_vals[j] + required_eps >= opt_vals[-1]`) and
whose play count is strictly below its target; it returns 0 when no index
qualifies, and never returns the threshold of a later qualifying index. -/
theorem ada_next_first_match (s : AdaSchedule) (v : List ℚ) :
    ((∀ i, ¬ ada_qualifies s v i) → (s.next v).1 = 0) ∧
    (∀ i, ada_qualifies s v i → (∀ j, j < i → ¬ ada_qualifies s v j) →
      (s.next v).1 = v.getLastD 0 - v.getD i 0 + 1 / 10000) := by
  rcases h : scan_from s v 0 (s.m - 1) with _ | k
  · have hall := (scan_from_none_iff s v (s.m - 1) 0).mp h
    constructor
    · intro _
      rw [ada_next_fst, h]
    · intro i hi _
      rcases (ada_qualifies_iff s v i).mp hi with ⟨h1, h2⟩
      exact absurd h2 (hall i (by omega) (by omega))
  · rcases (scan_from_some_iff s v (s.m - 1) 0 k).mp h with
      ⟨_, hbound, hcond, hmin⟩
    constructor
    · intro hall
      exact absurd ((ada_qualifies_iff s v k).mpr ⟨by omega, hcond⟩) (hall k)
    · intro i hi hfirst
      rcases (ada_qualifies_iff s v i).mp hi with ⟨hi1, hi2⟩
      have hik : k = i := by
        rcases lt_trichotomy k i with h1 | h1 | h1
        · exact absurd ((ada_qualifies_iff s v k).mpr ⟨by omega, hcond⟩)
            (hfirst k h1)
        · exact h1
        · exact absurd hi2 (hmin i (by omega) h1)
      subst hik
      rw [ada_next_fst, h]
      rfl

/-- Witness for claim C2 at a concrete schedule state and value array. -/
theorem ada_next_first_match_witness :
    ((AdaSchedule.mk 2 [0, 0] [1, 0] none).next [0, 0]).1 =
      ([0, 0] : List ℚ).getLastD 0 - ([0, 0] : List ℚ).getD 0 0 + 1 / 10000 :=
  (ada_next_first_match (AdaSchedule.mk 2 [0, 0] [1, 0] none) [0, 0]).2 0
    (by
      refine ⟨by decide, fun j hj => by omega, by decide⟩)
    (fun j hj => by omega)

/-- Claim C9 (amended): for every schedule variant, `next` leaves `t` /
`n_plays` / every other counter unchanged; its only write is the `last_eps`
field, which it sets to the returned epsilon, so all counter transitions
happen through `update` alone. -/
theorem next_writes_only_last_eps :
    (∀ (s : AdaSchedule) (v : List ℚ),
      (s.next v).2 =
        AdaSchedule.mk s.m s.n_plays s.target_plays (some (s.next v).1)) ∧
    (∀ (s : LinearSchedule) (v : List ℚ),
      (s.next v).2 =
        LinearSchedule.mk s.start_eps s.cutoff_iter s.t (some (s.next v).1)) ∧
    (∀ (s : AdaLinSchedule) (v : List ℚ),
      (s.next v).2 =
        AdaLinSchedule.mk s.start_eps s.cutoff_iter s.t (some (s.next v).1)) :=
  ⟨fun _ _ => rfl, fun _ _ => rfl, fun _ _ => rfl⟩

/-- Counterexample to claim C9 as stated: `next` is not a pure read; on a
fresh `AdaSchedule` state (with `last_eps = None`) the post-call state
differs from the pre-call state, because `next` stores the returned epsilon
into `last_eps`. -/
theorem next_purity_counterexample :
    ((AdaSchedule.mk 1 [0] [0] none).next [0]).2 ≠
      AdaSchedule.mk 1 [0] [0] none := by
  decide

/-- Iterating `update` on a `LinearSchedule` advances only the counter `t`. -/
theorem linear_update_iterate (n : ℕ) (s : LinearSchedule) :
    (fun s0 : LinearSchedule => s0.update none)^[n] s =
      LinearSchedule.mk s.start_eps s.cutoff_iter (s.t + n) s.last_eps := by
  induction n with
  | zero => rfl
  | succ n ih =>
    rw [Function.iterate_succ_apply', ih]
    rfl

/-- Claim C4 (amended): with `cutoff_iter > 0`, `next` returns exactly
`start_eps * max(1 - t / cutoff_iter, 0)`; when `start_eps >= 0` this is
non-increasing in `t`; it equals `start_eps` at `t = 0` and equals exactly
`0` at and after `t = cutoff_iter`; in particular
`LinearSchedule(start_eps=2.0, cutoff_iter=400)` returns exactly `0.0`
after 400 `update` calls. -/
theorem linear_schedule_decay (start_eps cutoff_iter : ℚ) (t : ℕ)
    (l : Option ℚ) (v : List ℚ) (hc : 0 < cutoff_iter) :
    ((LinearSchedule.mk start_eps cutoff_iter t l).next v).1 =
      start_eps * max (1 - (t : ℚ) / cutoff_iter) 0 ∧
    (0 ≤ start_eps → ∀ t2 : ℕ, t ≤ t2 →
      ((LinearSchedule.mk start_eps cutoff_iter t2 l).next v).1 ≤
        ((LinearSchedule.mk start_eps cutoff_iter t l).next v).1) ∧
    ((LinearSchedule.make start_eps cutoff_iter).next v).1 = start_eps ∧
    (cutoff_iter ≤ (t : ℚ) →
      ((LinearSchedule.mk start_eps cutoff_iter t l).next v).1 = 0) ∧
    (((fun s0 : LinearSchedule => s0.update none)^[400]
        (LinearSchedule.make 2 400)).next v).1 = 0 := by
  have hval : ∀ (t0 : ℕ) (l0 : Option ℚ),
      ((LinearSchedule.mk start_eps cutoff_iter t0 l0).next v).1 =
        start_eps * max (1 - (t0 : ℚ) / cutoff_iter) 0 := by
    intro t0 l0
    show linear_eps (LinearSchedule.mk start_eps cutoff_iter t0 l0) = _
    unfold linear_eps
    rw [npmax_eq_max]
  refine ⟨hval t l, ?_, ?_, ?_, ?_⟩
  · intro hse t2 ht
    rw [hval t l, hval t2 l]
    have ht' : (t : ℚ) ≤ (t2 : ℚ) := by exact_mod_cast ht
    apply mul_le_mul_of_nonneg_left _ hse
    apply max_le_max _ le_rfl
    apply sub_le_sub_left
    exact (div_le_div_iff_of_pos_right hc).mpr ht'
  · rw [show LinearSchedule.make start_eps cutoff_iter =
      LinearSchedule.mk start_eps cutoff_iter 0 none from rfl, hval 0 none]
    norm_num
  · intro hct
    rw [hval t l]
    have h0 : max (1 - (t : ℚ) / cutoff_iter) 0 = 0 := by
      apply max_eq_right
      have : (1 : ℚ) ≤ (t : ℚ) / cutoff_iter := (one_le_div hc).mpr hct
      linarith
    rw [h0, mul_zero]
  · rw [linear_update_iterate]
    norm_num [LinearSchedule.make, LinearSchedule.next, linear_eps, npmax]

/-- Witness for claim C4 at `start_eps = 2`, `cutoff_iter = 400`, `t = 0`. -/
theorem linear_schedule_decay_witness :
    ((LinearSchedule.make 2 400).next []).1 = 2 :=
  (linear_schedule_decay 2 400 0 none [] (by norm_num)).2.2.1

/-- Counterexample to claim C4 as stated: with `start_eps = -1` and
`cutoff_iter = 2 > 0` the returned epsilon is not non-increasing in `t`;
after one `update` call `next` returns `-1/2`, strictly more than the `-1`
returned at construction time. -/
theorem linear_monotone_counterexample :
    (0 : ℚ) < 2 ∧
    ¬ ((((LinearSchedule.make (-1) 2).update none).next []).1 ≤
        ((LinearSchedule.make (-1) 2).next []).1) := by
  constructor
  · norm_num
  · norm_num [LinearSchedule.make, LinearSchedule.update, LinearSchedule.next,
      linear_eps, npmax]

/-- Claim C10: `AdaSchedule.__init__` checks `len(random_sets[-1]) == 0`
before building any play counters or target play counts; when the last
catalog entry has a non-empty random set, construction fails and no
schedule object exists, and every constructed object has an empty last
random set. -/
theorem ada_make_requires_empty_last (costs : List ℚ)
    (control_sets random_sets : List (List ℕ))
    (variances lengthscales : List ℚ) :
    (random_sets ≠ [] → random_sets.getLastD [] ≠ [] →
      AdaSchedule.make costs control_sets random_sets variances lengthscales =
        none) ∧
    (∀ s, AdaSchedule.make costs control_sets random_sets variances
        lengthscales = some s → random_sets.getLastD [] = []) := by
  unfold AdaSchedule.make
  constructor
  · intro hne hlast
    rw [if_neg (by simpa using hne), if_neg hlast]
  · intro s hs
    by_cases h0 : random_sets.length = 0
    · rw [if_pos h0] at hs
      exact absurd hs (by simp)
    · rw [if_neg h0] at hs
      by_cases hlast : random_sets.getLastD [] = []
      · exact hlast
      · rw [if_neg hlast] at hs
        exact absurd hs (by simp)

/-- Witness for claim C10: a catalog whose last (only) random set is
non-empty makes construction fail. -/
theorem ada_make_requires_empty_last_witness :
    AdaSchedule.make [] [] [[0]] [] [] = none :=
  (ada_make_requires_empty_last [] [] [[0]] [] []).1 (by decide) (by decide)

/-- Claim C1 (code divergence, `core/dists.py` line 139): in the supported
`dims = 5` catalog the last control set `[0, 1, 2, 3, 4]` IS the full
dimension set, yet `get_opt_queries_and_vals` does not take the direct
branch for it, because the source compares the number of catalog entries
(7) with `dims` (5) instead of testing the i-th control set; conversely,
in a two-entry catalog over `dims = 2` the strict subset `[0]` would be
sent to the direct branch. -/
theorem full_set_branch_divergence :
    psq_get_control_sets 5 0 =
      Except.ok [[0, 1], [2, 3], [3, 4], [0, 1, 2], [1, 2, 3], [2, 3, 4],
        [0, 1, 2, 3, 4]] ∧
    ([[0, 1], [2, 3], [3, 4], [0, 1, 2], [1, 2, 3], [2, 3, 4],
      [0, 1, 2, 3, 4]] : List (List ℕ)).getD 6 [] = List.range 5 ∧
    opt_branch
      [[0, 1], [2, 3], [3, 4], [0, 1, 2], [1, 2, 3], [2, 3, 4],
        [0, 1, 2, 3, 4]]
      (get_random_sets 5
        [[0, 1], [2, 3], [3, 4], [0, 1, 2], [1, 2, 3], [2, 3, 4],
          [0, 1, 2, 3, 4]]) 5 6 ≠ OptBranch.direct ∧
    ([0] : List ℕ) ≠ List.range 2 ∧
    opt_branch [[0], [1]] (get_random_sets 2 [[0], [1]]) 2 0 =
      OptBranch.direct := by
  refine ⟨rfl, by decide, by decide, by decide, by decide⟩

/-- Indexing a map over `List.range` inside the range. -/
theorem getD_map_range {α : Type} (g : ℕ → α) (d : α) (m i : ℕ) (h : i < m) :
    ((List.range m).map g).getD i d = g i := by
  rw [List.getD_eq_getElem?_getD, List.getElem?_map, List.getElem?_range h]
  rfl

/-- Indexing via `getD` with default `0` of a list of non-negative rationals. -/
theorem getD_nonneg (l : List ℚ) (h : ∀ x ∈ l, 0 ≤ x) (i : ℕ) :
    0 ≤ l.getD i 0 := by
  by_cases hi : i < l.length
  · rw [List.getD_eq_getElem l 0 hi]
    exact h _ (List.getElem_mem hi)
  · rw [List.getD_eq_default l 0 (by omega)]

/-- The last element as returned by `getLastD` belongs to a non-empty
list. -/
theorem getLastD_mem {α : Type} (a : α) (l : List α) (d : α) :
    (a :: l).getLastD d ∈ a :: l := by
  induction l generalizing a d with
  | nil => simp [List.getLastD_cons]
  | cons b t ih =>
    rw [List.getLastD_cons]
    exact List.mem_cons_of_mem a (ih b a)

/-- The cost ratio `costs[-1] / costs[i]` is non-negative for positive cost
vectors (also covering the empty / out-of-range defaults of the model). -/
theorem cost_ratio_nonneg (costs : List ℚ) (h : ∀ c ∈ costs, 0 < c) (i : ℕ) :
    0 ≤ costs.getLastD 0 / costs.getD i 0 := by
  apply div_nonneg
  · cases costs with
    | nil => simp
    | cons a l => exact le_of_lt (h _ (getLastD_mem a l 0))
  · exact getD_nonneg costs (fun x hx => le_of_lt (h x hx)) i

/-- Indexing the elementwise quotient `variances / lengthscales` agrees with
the quotient of the indexed entries when the two arrays have equal length. -/
theorem zipWith_div_getD (variances lengthscales : List ℚ)
    (hlen : variances.length = lengthscales.length) (d : ℕ) :
    (List.zipWith (fun v l => v / l) variances lengthscales).getD d 0 =
      variances.getD d 0 / lengthscales.getD d 0 := by
  by_cases h : d < variances.length
  · rw [List.getD_eq_getElem _ _
        (by rw [List.length_zipWith]; omega),
      List.getElem_zipWith, List.getD_eq_getElem _ _ h,
      List.getD_eq_getElem _ _ (by omega)]
  · rw [List.getD_eq_default _ _
        (by rw [List.length_zipWith]; omega),
      List.getD_eq_default variances _ (by omega), zero_div]

/-- Claim C3: at `AdaSchedule` construction each non-full index `i` gets
target `0` exactly when another catalog entry with a superset control set
and cost at most `cost[i]` exists, and an index with target `0` is never
the one the `next` scan selects; a non-dominated index gets
`floor((cost[-1] / cost[i]) * sum(variance[d] / lengthscale[d]))` over its
random set; the full (last) index always has target `0`. -/
theorem ada_target_plays_spec (costs : List ℚ)
    (control_sets random_sets : List (List ℕ))
    (variances lengthscales : List ℚ) (s : AdaSchedule)
    (hmk : AdaSchedule.make costs control_sets random_sets variances
      lengthscales = some s)
    (hcost : ∀ c ∈ costs, 0 < c)
    (hvar : ∀ x ∈ variances, 0 ≤ x)
    (hls : ∀ x ∈ lengthscales, 0 < x)
    (hlen : variances.length = lengthscales.length) :
    (∀ i, i + 1 < s.m →
      (dominated_spec costs control_sets s.m i →
        s.target_plays.getD i 0 = 0) ∧
      (¬ dominated_spec costs control_sets s.m i →
        s.target_plays.getD i 0 =
          ⌊target_formula costs variances lengthscales random_sets i⌋)) ∧
    s.target_plays.getD (s.m - 1) 0 = 0 ∧
    (∀ (s2 : AdaSchedule) (v : List ℚ) (i : ℕ),
      s2.target_plays.getD i 0 = 0 →
        scan_from s2 v 0 (s2.m - 1) ≠ some i) := by
  unfold AdaSchedule.make at hmk
  by_cases h0 : random_sets.length = 0
  · rw [if_pos h0] at hmk
    exact absurd hmk (by simp)
  · rw [if_neg h0] at hmk
    by_cases hlast : random_sets.getLastD [] = []
    · rw [if_pos hlast] at hmk
      have hX := Option.some.inj hmk
      have hm : s.m = random_sets.length := by rw [← hX]
      have htp : s.target_plays =
          (List.range random_sets.length).map (fun i =>
            if i + 1 < random_sets.length then
              target_play costs control_sets random_sets
                (List.zipWith (fun v l => v / l) variances lengthscales)
                random_sets.length i
            else 0) := by rw [← hX]
      refine ⟨?_, ?_, ?_⟩
      · intro i hi
        rw [hm] at hi
        have hgd : s.target_plays.getD i 0 =
            target_play costs control_sets random_sets
              (List.zipWith (fun v l => v / l) variances lengthscales)
              random_sets.length i := by
          rw [htp, getD_map_range _ _ _ _ (by omega), if_pos hi]
        constructor
        · intro hdom
          rw [hm] at hdom
          rw [hgd]
          unfold target_play
          rw [if_pos (show zero_plays_cond costs control_sets
            random_sets.length i from hdom)]
        · intro hndom
          rw [hm] at hndom
          rw [hgd]
          unfold target_play
          rw [if_neg (show ¬ zero_plays_cond costs control_sets
            random_sets.length i from hndom)]
          have hsum : ((random_sets.getD i []).map
              (fun d => (List.zipWith (fun v l => v / l) variances
                lengthscales).getD d 0)) =
              ((random_sets.getD i []).map
                (fun d => variances.getD d 0 / lengthscales.getD d 0)) :=
            List.map_congr_left
              (fun d _ => zipWith_div_getD variances lengthscales hlen d)
          rw [hsum, pyint_eq_floor]
          · rfl
          · apply mul_nonneg (cost_ratio_nonneg costs hcost i)
            apply List.sum_nonneg
            intro x hx
            obtain ⟨d, _, rfl⟩ := List.mem_map.mp hx
            exact div_nonneg (getD_nonneg variances hvar d)
              (getD_nonneg lengthscales (fun y hy => le_of_lt (hls y hy)) d)
      · rw [hm, htp, getD_map_range _ _ _ _ (by omega), if_neg (by omega)]
      · intro s2 v i hzero hsome
        rcases (scan_from_some_iff s2 v (s2.m - 1) 0 i).mp hsome with
          ⟨_, _, hcond, _⟩
        rcases hcond with ⟨hlt, _⟩
        rw [hzero] at hlt
        omega
    · rw [if_neg hlast] at hmk
      exact absurd hmk (by simp)

/-- Witness for claim C3 at a concrete two-entry catalog: costs `[1, 2]`,
control sets `[0]` and `[0, 1]`, random sets `[1]` and `[]`, unit variances
and lengthscales. -/
theorem ada_target_plays_spec_witness :
    (AdaSchedule.mk 2 [0, 0] [2, 0] none).target_plays.getD 0 0 =
      ⌊target_formula [1, 2] [1, 1] [1, 1] [[1], []] 0⌋ := by
  have hnd : ¬ zero_plays_cond [1, 2] [[0], [0, 1]] 2 0 := by
    rintro ⟨j, hj, hne, hsub, hle⟩
    interval_cases j
    · exact hne rfl
    · norm_num [List.getD_cons_succ, List.getD_cons_zero] at hle
  have hmk : AdaSchedule.make [1, 2] [[0], [0, 1]] [[1], []] [1, 1] [1, 1] =
      some (AdaSchedule.mk 2 [0, 0] [2, 0] none) := by
    simp only [AdaSchedule.make, List.length_cons, List.length_nil]
    norm_num [List.getLastD_cons, target_play, hnd, pyint,
      List.getD_cons_zero, List.getD_cons_succ, List.zipWith,
      List.range_succ, List.range_zero, List.replicate_succ]
  exact ((ada_target_plays_spec [1, 2] [[0], [0, 1]] [[1], []] [1, 1] [1, 1]
      (AdaSchedule.mk 2 [0, 0] [2, 0] none) hmk
      (by intro c hc; fin_cases hc <;> norm_num)
      (by intro x hx; fin_cases hx <;> norm_num)
      (by intro x hx; fin_cases hx <;> norm_num)
      rfl).1 0 (by decide)).2 hnd

/-- Claim C5: for every supported `(dims, control_sets_id, costs_id)`
combination, `get_control_sets_and_costs` (both the `psq.py` and the
`cvs.py` version) succeeds: per catalog entry the control-set and computed
random-set indices are disjoint and their sorted union is `[0, dims)`, and
the cost vector has the same length as the control-set list, so neither
internal assertion fires. -/
theorem catalog_registry_invariants (dims control_sets_id costs_id : ℕ)
    (cs : List (List ℕ)) (costs : List ℚ) :
    (psq_get_control_sets dims control_sets_id = Except.ok cs →
      get_costs costs_id = Except.ok costs →
      psq_get_control_sets_and_costs dims control_sets_id costs_id =
        Except.ok (cs, get_random_sets dims cs, costs) ∧
      (∀ i, i < cs.length →
        (∀ d ∈ cs.getD i [], d ∉ (get_random_sets dims cs).getD i []) ∧
        npsort (cs.getD i [] ++ (get_random_sets dims cs).getD i []) =
          List.range dims) ∧
      costs.length = cs.length) ∧
    (cvs_get_control_sets dims control_sets_id = Except.ok cs →
      get_costs costs_id = Except.ok costs →
      cvs_get_control_sets_and_costs dims control_sets_id costs_id =
        Except.ok (cs, get_random_sets dims cs, costs) ∧
      (∀ i, i < cs.length →
        (∀ d ∈ cs.getD i [], d ∉ (get_random_sets dims cs).getD i []) ∧
        npsort (cs.getD i [] ++ (get_random_sets dims cs).getD i []) =
          List.range dims) ∧
      costs.length = cs.length) := by
  constructor
  · intro h1 h2
    unfold psq_get_control_sets at h1
    unfold get_costs at h2
    split_ifs at h1 h2 <;>
      first
        | exact Except.noConfusion h1
        | exact Except.noConfusion h2
        | (injection h1 with hcs
           injection h2 with hco
           subst_vars
           exact ⟨rfl, by decide, by decide⟩)
  · intro h1 h2
    unfold cvs_get_control_sets at h1
    unfold get_costs at h2
    split_ifs at h1 h2 <;>
      first
        | exact Except.noConfusion h1
        | exact Except.noConfusion h2
        | (injection h1 with hcs
           injection h2 with hco
           subst_vars
           exact ⟨rfl, by decide, by decide⟩)

/-- Witness for claim C5 at `(dims, control_sets_id, costs_id) =
(5, 0, 0)`. -/
theorem catalog_registry_invariants_witness :
    psq_get_control_sets_and_costs 5 0 0 =
      Except.ok
        ([[0, 1], [2, 3], [3, 4], [0, 1, 2], [1, 2, 3], [2, 3, 4],
          [0, 1, 2, 3, 4]],
         get_random_sets 5
          [[0, 1], [2, 3], [3, 4], [0, 1, 2], [1, 2, 3], [2, 3, 4],
            [0, 1, 2, 3, 4]],
         [1/100, 1/100, 1/100, 1/10, 1/10, 1/10, 1]) :=
  ((catalog_registry_invariants 5 0 0
    [[0, 1], [2, 3], [3, 4], [0, 1, 2], [1, 2, 3], [2, 3, 4],
      [0, 1, 2, 3, 4]]
    [1/100, 1/100, 1/100, 1/10, 1/10, 1/10, 1]).1 rfl rfl).1

/-- Zipping a list with a map over `List.range` is a map over `List.range`
of the indexed entries. -/
theorem zipWith_map_range {α β γ : Type} (f : α → β → γ) (l : List α)
    (g : ℕ → β) (dflt : α) (n : ℕ) (h : l.length = n) :
    List.zipWith f l ((List.range n).map g) =
      (List.range n).map (fun i => f (l.getD i dflt) (g i)) := by
  apply List.ext_getElem
  · simp [List.length_zipWith, h]
  · intro i h1 h2
    have hl : i < l.length := by
      simp only [List.length_zipWith, List.length_map, List.length_range] at h1
      omega
    simp only [List.getElem_zipWith, List.getElem_map, List.getElem_range]
    rw [List.getD_eq_getElem l dflt hl]

/-- Any map over a list is a map over `List.range` of its indexed
entries. -/
theorem map_eq_map_range {α β : Type} (F : α → β) (l : List α) (dflt : α) :
    l.map F = (List.range l.length).map (fun i => F (l.getD i dflt)) := by
  apply List.ext_getElem
  · simp
  · intro i h1 h2
    simp only [List.getElem_map, List.getElem_range]
    rw [List.getD_eq_getElem l dflt (by simpa using h1)]

/-- Dividing each mapped entry by a constant divides the sum. -/
theorem sum_map_div {α : Type} (l : List α) (F : α → ℚ) (c : ℚ) :
    (l.map (fun d => F d / c)).sum = (l.map F).sum / c := by
  induction l with
  | nil => simp
  | cons a t ih => simp [ih, add_div]

/-- Indexing `dropLast` inside its length agrees with the base list. -/
theorem dropLast_getD (l : List ℚ) (i : ℕ) (h : i < l.length - 1) :
    l.dropLast.getD i 0 = l.getD i 0 := by
  rw [List.getD_eq_getElem _ _ (by simp [List.length_dropLast]; omega),
    List.getElem_dropLast, List.getD_eq_getElem _ _ (by omega)]

/-- Claim C7 (amended): the `AdaLinSchedule` cutoff is fixed at construction
to the Python-`int` truncation of `cutoff_mult` times the sum over non-full
catalog indices of `cost[-1] / cost[i]`, each term scaled by the random
set's variance sum divided by the uniform variance `1/12` in
variance-aware mode and by `1` otherwise; afterwards `next` has the exact
`LinearSchedule` decay shape with this cutoff. -/
theorem adalin_cutoff_spec (start_eps cutoff_mult : ℚ) (var_aware : Bool)
    (costs : List ℚ) (random_sets : List (List ℕ)) (variances : List ℚ)
    (hlen : costs.length = random_sets.length) :
    (AdaLinSchedule.make start_eps cutoff_mult var_aware costs random_sets
        variances).cutoff_iter =
      pyint (cutoff_mult *
        ((List.range (random_sets.length - 1)).map (fun i =>
          costs.getLastD 0 / costs.getD i 0 *
            (if var_aware then
              ((random_sets.getD i []).map
                (fun d => variances.getD d 0)).sum / (1 / 12)
            else 1))).sum) ∧
    (AdaLinSchedule.make start_eps cutoff_mult var_aware costs random_sets
        variances).start_eps = start_eps ∧
    (AdaLinSchedule.make start_eps cutoff_mult var_aware costs random_sets
        variances).t = 0 ∧
    (∀ (s : AdaLinSchedule) (v : List ℚ),
      (s.next v).1 =
        ((LinearSchedule.mk s.start_eps (s.cutoff_iter : ℚ) s.t
          s.last_eps).next v).1) := by
  refine ⟨?_, rfl, rfl, fun s v => rfl⟩
  unfold AdaLinSchedule.make
  apply congrArg pyint
  apply congrArg (fun q => cutoff_mult * q)
  cases var_aware with
  | true =>
    show (List.zipWith (fun c s => costs.getLastD 0 / c * s) costs.dropLast
      (sum_of_variances variances random_sets)).sum = _
    unfold sum_of_variances
    rw [zipWith_map_range _ _ _ 0 (random_sets.length - 1)
      (by rw [List.length_dropLast]; omega)]
    apply congrArg List.sum
    apply List.map_congr_left
    intro i hi
    have hi2 : i < random_sets.length - 1 := List.mem_range.mp hi
    rw [dropLast_getD costs i (by omega), sum_map_div, if_pos rfl]
  | false =>
    show (costs.dropLast.map (fun c => costs.getLastD 0 / c)).sum = _
    rw [map_eq_map_range _ costs.dropLast 0, List.length_dropLast, hlen]
    apply congrArg List.sum
    apply List.map_congr_left
    intro i hi
    have hi2 : i < random_sets.length - 1 := List.mem_range.mp hi
    rw [dropLast_getD costs i (by omega), if_neg (by simp), mul_one]

/-- Witness for claim C7 at a concrete two-entry catalog. -/
theorem adalin_cutoff_spec_witness :
    (AdaLinSchedule.make 2 1 false [3/5, 1] [[0], []] [1/12]).cutoff_iter =
      pyint (1 *
        ((List.range ((([[0], []] : List (List ℕ))).length - 1)).map (fun i =>
          ([3/5, 1] : List ℚ).getLastD 0 / ([3/5, 1] : List ℚ).getD i 0 *
            (if (false : Bool) then
              ((([[0], []] : List (List ℕ)).getD i []).map
                (fun d => ([1/12] : List ℚ).getD d 0)).sum / (1 / 12)
            else 1))).sum) :=
  (adalin_cutoff_spec 2 1 false [3/5, 1] [[0], []] [1/12] (by decide)).1

/-- Counterexample to claim C7 as stated: with costs `[3/5, 1]`, one
non-full control set with random set `[0]` and `cutoff_mult = 1` (variance
mode off), the claimed cutoff value `cost[-1]/cost[0] = 5/3` is not an
integer; the constructed schedule stores `int(5/3) = 1`, not `5/3`. -/
theorem adalin_cutoff_counterexample :
    (AdaLinSchedule.make 2 1 false [3/5, 1] [[0], []] [1/12]).cutoff_iter =
      1 ∧
    (1 : ℚ) * ((List.range (2 - 1)).map (fun i =>
      ([3/5, 1] : List ℚ).getLastD 0 / ([3/5, 1] : List ℚ).getD i 0 *
        (if (false : Bool) then
          ((([[0], []] : List (List ℕ)).getD i []).map
            (fun d => ([1/12] : List ℚ).getD d 0)).sum / (1 / 12)
        else 1))).sum = 5/3 ∧
    ((1 : ℤ) : ℚ) ≠ 5/3 := by
  refine ⟨?_, ?_, by norm_num⟩
  · norm_num [AdaLinSchedule.make, sum_of_variances, pyint, List.zipWith,
      List.getLastD_cons, List.getD_cons_zero, List.range_succ,
      List.range_zero]
  · norm_num [List.range_succ, List.range_zero, List.getLastD_cons,
      List.getD_cons_zero]

/-- Every value the bisection loop returns has variance within the
`np.allclose` tolerance of the target: the loop only exits at the
tolerance check. -/
theorem bisect_loop_ok (f : ℚ → ℚ) (v : ℚ) :
    ∀ (fuel : ℕ) (low high s : ℚ), bisect_loop f v low high fuel = some s →
      np_allclose (f s) v := by
  intro fuel
  induction fuel with
  | zero =>
    intro low high s h
    exact absurd h (by simp [bisect_loop])
  | succ fuel ih =>
    intro low high s h
    rw [bisect_loop] at h
    split_ifs at h with h1 h2
    · have hs := Option.some.inj h
      rw [← hs]
      exact h1
    · exact ih low _ s h
    · exact ih _ high s h

/-- Claim C6 (amended): `get_truncnorm_scale` raises exactly when the
target variance is strictly below the variance at scale `0.001` or
strictly above the variance at scale `100` (at exact equality with an
endpoint variance it does not raise), and whenever the bisection loop
returns a scale, that scale's truncated-normal variance is within the
`np.allclose` tolerance of the target. -/
theorem truncnorm_scale_spec (normCdf normPdf : ℚ → ℚ)
    (desired_var loc a b : ℚ) (fuel : ℕ) :
    (raised (get_truncnorm_scale normCdf normPdf desired_var loc a b fuel) =
        true ↔
      (desired_var < truncnorm_variance normCdf normPdf loc (1/1000) a b ∨
        truncnorm_variance normCdf normPdf loc 100 a b < desired_var)) ∧
    (∀ s : ℚ, get_truncnorm_scale normCdf normPdf desired_var loc a b fuel =
        Except.ok (some s) →
      np_allclose (truncnorm_variance normCdf normPdf loc s a b)
        desired_var) := by
  constructor
  · unfold get_truncnorm_scale
    split_ifs with h1 h2
    · exact iff_of_true rfl (Or.inl h1)
    · exact iff_of_true rfl (Or.inr h2)
    · exact iff_of_false (by simp [raised]) (not_or.mpr ⟨h1, h2⟩)
  · intro s hs
    unfold get_truncnorm_scale at hs
    split_ifs at hs
    exact bisect_loop_ok
      (fun s2 => truncnorm_variance normCdf normPdf loc s2 a b)
      desired_var fuel (1/1000) 100 s (Except.ok.inj hs)

/-- Witness for claim C6: with the abstract pdf constantly `0` the variance
function is `scale ^ 2`; at target `(100001/2000) ^ 2` the first bisection
midpoint already satisfies the tolerance check. -/
theorem truncnorm_scale_spec_witness :
    np_allclose
      (truncnorm_variance (fun x => x) (fun _ => 0) (1/2) (100001/2000) 0 1)
      (10000200001/4000000) :=
  (truncnorm_scale_spec (fun x => x) (fun _ => 0) (10000200001/4000000)
    (1/2) 0 1 1).2 (100001/2000)
    (by
      norm_num [get_truncnorm_scale, bisect_loop, truncnorm_variance,
        np_allclose]
      intro h
      exact absurd h (by positivity : (0:ℚ) ≤ _).not_lt)

/-- Counterexample to claim C6 as stated: with the abstract pdf constantly
`0` the variance function is `scale ^ 2`, strictly increasing over the
bracket; at a target variance exactly equal to the variance at the low
endpoint (`(1/1000) ^ 2`), the claim says the function raises, but the
source's strict comparisons (`>` and `<`) do not fire and no error is
raised. -/
theorem truncnorm_scale_boundary_counterexample :
    (∀ s1 s2 : ℚ, 1/1000 ≤ s1 → s1 < s2 → s2 ≤ 100 →
      truncnorm_variance (fun x => x) (fun _ => 0) (1/2) s1 0 1 <
        truncnorm_variance (fun x => x) (fun _ => 0) (1/2) s2 0 1) ∧
    (1/1000000 : ℚ) ≤
      truncnorm_variance (fun x => x) (fun _ => 0) (1/2) (1/1000) 0 1 ∧
    raised (get_truncnorm_scale (fun x => x) (fun _ => 0) (1/1000000)
      (1/2) 0 1 0) = false := by
  have hv : ∀ s : ℚ, truncnorm_variance (fun x => x) (fun _ => 0) (1/2) s 0 1
      = s ^ 2 := by
    intro s
    unfold truncnorm_variance
    norm_num
  refine ⟨?_, ?_, ?_⟩
  · intro s1 s2 h1 h2 h3
    rw [hv, hv]
    have h0 : (0 : ℚ) < s1 := lt_of_lt_of_le (by norm_num) h1
    nlinarith
  · rw [hv]
    norm_num
  · norm_num [get_truncnorm_scale, truncnorm_variance, raised, bisect_loop]

/-- Claim C8: when the control and random index arrays partition
`[0, dims)`, the permutation `order_idxs` built from their concatenation
exactly inverts it: indexing the concatenation by `order_idxs` recovers
`[0, 1, ..., dims - 1]`, and indexing any per-dimension value row assembled
in concatenated order recovers the values in original dimension order. -/
theorem order_idxs_inverts_concatenation (control random : List ℕ)
    (dims : ℕ) (h : (control ++ random).Perm (List.range dims)) :
    (order_idxs (control ++ random)).map
      (fun k => (control ++ random).getD k 0) = List.range dims ∧
    ∀ v : ℕ → ℚ,
      (order_idxs (control ++ random)).map
        (fun k => ((control ++ random).map v).getD k 0) =
        (List.range dims).map v := by
  have hlen : (control ++ random).length = dims := by
    rw [h.length_eq, List.length_range]
  have hmem : ∀ j, j < dims → j ∈ control ++ random := fun j hj =>
    h.mem_iff.mpr (List.mem_range.mpr hj)
  have hkey : ∀ j, j < dims →
      (control ++ random).getD ((control ++ random).indexOf j) 0 = j := by
    intro j hj
    have hidx : (control ++ random).indexOf j < (control ++ random).length :=
      List.indexOf_lt_length.mpr (hmem j hj)
    rw [List.getD_eq_getElem _ _ hidx]
    exact List.getElem_indexOf hidx
  constructor
  · unfold order_idxs
    rw [hlen, List.map_map]
    have : ∀ j ∈ List.range dims,
        ((fun k => (control ++ random).getD k 0) ∘
          (fun j => (control ++ random).indexOf j)) j = id j := by
      intro j hj
      exact hkey j (List.mem_range.mp hj)
    rw [List.map_congr_left this, List.map_id]
  · intro v
    unfold order_idxs
    rw [hlen, List.map_map]
    apply List.map_congr_left
    intro j hj
    have hj2 := List.mem_range.mp hj
    have hidx : (control ++ random).indexOf j < (control ++ random).length :=
      List.indexOf_lt_length.mpr (hmem j hj2)
    show ((control ++ random).map v).getD
      ((control ++ random).indexOf j) 0 = v j
    rw [List.getD_eq_getElem _ _ (by rw [List.length_map]; exact hidx),
      List.getElem_map]
    rw [List.getElem_indexOf hidx]

/-- Witness for claim C8 at the partition `[1]` / `[0]` of `[0, 2)`. -/
theorem order_idxs_inverts_concatenation_witness :
    (order_idxs ([1] ++ [0])).map (fun k => ([1] ++ [0]).getD k 0) =
      List.range 2 :=
  (order_idxs_inverts_concatenation [1] [0] 2 (by decide)).1
